import Mathlib

set_option maxHeartbeats 1000000

/-!
Shallow embedding of the path-resolution and file-aggregation pipeline of the
vscode-copyfiles extension (src/src/extension.ts), together with theorems
settling the frozen claims about it.

Paths are modelled as Lean strings (the fsPath strings of the source);
bytes as lists of naturals; fallible filesystem reads as Option values,
where none models a thrown error.
-/

namespace LlmCopier

/-! ## String prefix matching (model of JavaScript startsWith) -/

/-- Model of JavaScript startsWith on character lists: `listStartsWith s p`
is true when `p` occurs at position 0 of `s`. -/
def listStartsWith : List Char → List Char → Bool
  | _, [] => true
  | [], _ :: _ => false
  | c :: cs, p :: ps => if c = p then listStartsWith cs ps else false

/-- Model of the source expression `filePath.startsWith(workspacePath)`:
character sequence prefix test. -/
def strStartsWith (s p : String) : Bool :=
  listStartsWith s.data p.data

theorem listStartsWith_iff (p s : List Char) :
    listStartsWith s p = true ↔ ∃ t, p ++ t = s := by
  induction p generalizing s with
  | nil => simp [listStartsWith]
  | cons a as ih =>
    cases s with
    | nil =>
      simp only [listStartsWith, Bool.false_eq_true, false_iff, not_exists]
      intro t ht
      exact absurd ht (by simp)
    | cons b bs =>
      simp only [listStartsWith]
      by_cases hab : b = a
      · subst hab
        rw [if_pos rfl, ih]
        constructor
        · rintro ⟨t, rfl⟩
          exact ⟨t, rfl⟩
        · rintro ⟨t, ht⟩
          simp only [List.cons_append, List.cons.injEq] at ht
          exact ⟨t, ht.2⟩
      · rw [if_neg hab]
        simp only [Bool.false_eq_true, false_iff, not_exists]
        intro t ht
        simp only [List.cons_append, List.cons.injEq] at ht
        exact hab ht.1.symm

theorem strStartsWith_iff (s p : String) :
    strStartsWith s p = true ↔ ∃ t, p.data ++ t = s.data := by
  simpa [strStartsWith] using listStartsWith_iff p.data s.data

theorem take_append_self (p t : List Char) : (p ++ t).take p.length = p := by
  induction p with
  | nil => rfl
  | cons a as ih => simp [ih]

/-- Two prefixes of the same character list with equal length are equal. -/
theorem prefix_eq_of_length_eq {p q s : List Char}
    (hp : ∃ t, p ++ t = s) (hq : ∃ t, q ++ t = s)
    (hlen : p.length = q.length) : p = q := by
  obtain ⟨t₁, h₁⟩ := hp
  obtain ⟨t₂, h₂⟩ := hq
  have hp' : p = s.take p.length := by rw [← h₁, take_append_self]
  have hq' : q = s.take q.length := by rw [← h₂, take_append_self]
  rw [hp', hq', hlen]

theorem string_eq_of_data_eq {a b : String} (h : a.data = b.data) : a = b := by
  cases a
  cases b
  exact congrArg String.mk h

/-! ## RootResolver: getWorkspaceRootForUri (src/src/extension.ts:56-77)

The source iterates over the workspace folders, keeping the matching root
with the greatest fsPath length (longestPath starts at -1, strictly-greater
comparison). -/

/-- One loop iteration of getWorkspaceRootForUri: the accumulator is the
pair (bestMatch, longestPath). -/
def rootStep (filePath : String) (acc : Option String × Int) (ws : String) :
    Option String × Int :=
  if strStartsWith filePath ws then
    if acc.2 < (ws.data.length : Int) then (some ws, (ws.data.length : Int))
    else acc
  else acc

/-- Model of getWorkspaceRootForUri: returns the candidate workspace root
with the longest path that is a string-prefix of filePath, or none. -/
def getWorkspaceRootForUri (workspaceFolders : List String) (filePath : String) :
    Option String :=
  match workspaceFolders with
  | [] => none
  | _ :: _ => (workspaceFolders.foldl (rootStep filePath) (none, -1)).1

/-- Loop invariant for the fold inside getWorkspaceRootForUri. -/
def RootInv (f : String) (seen : List String) : Option String × Int → Prop
  | (none, n) => n = -1 ∧ ∀ r ∈ seen, strStartsWith f r = false
  | (some b, n) =>
      n = (b.data.length : Int) ∧ b ∈ seen ∧ strStartsWith f b = true ∧
        ∀ r ∈ seen, strStartsWith f r = true → r.data.length ≤ b.data.length

theorem rootStep_inv {f : String} {seen : List String} {acc : Option String × Int}
    (h : RootInv f seen acc) (ws : String) :
    RootInv f (seen ++ [ws]) (rootStep f acc ws) := by
  obtain ⟨best, n⟩ := acc
  unfold rootStep
  by_cases hws : strStartsWith f ws = true
  · rw [if_pos hws]
    by_cases hlt : ((best, n).2 < (ws.data.length : Int))
    · rw [if_pos hlt]
      refine ⟨rfl, List.mem_append_right _ (by simp), hws, ?_⟩
      intro r hr hrs
      rcases List.mem_append.mp hr with hr | hr
      · cases best with
        | none =>
          obtain ⟨hn, hall⟩ := h
          rw [hall r hr] at hrs
          cases hrs
        | some b =>
          obtain ⟨hn, hb, hbs, hmax⟩ := h
          have h1 := hmax r hr hrs
          simp only at hlt
          omega
      · simp only [List.mem_singleton] at hr
        subst hr
        exact Nat.le_refl _
    · rw [if_neg hlt]
      cases best with
      | none =>
        obtain ⟨hn, hall⟩ := h
        simp only [hn] at hlt
        omega
      | some b =>
        obtain ⟨hn, hb, hbs, hmax⟩ := h
        refine ⟨hn, List.mem_append_left _ hb, hbs, ?_⟩
        intro r hr hrs
        rcases List.mem_append.mp hr with hr | hr
        · exact hmax r hr hrs
        · simp only [List.mem_singleton] at hr
          subst hr
          simp only [hn] at hlt
          omega
  · have hws' : strStartsWith f ws = false := by
      cases hx : strStartsWith f ws
      · rfl
      · exact absurd hx hws
    rw [if_neg (by simp [hws'])]
    cases best with
    | none =>
      obtain ⟨hn, hall⟩ := h
      refine ⟨hn, ?_⟩
      intro r hr
      rcases List.mem_append.mp hr with hr | hr
      · exact hall r hr
      · simp only [List.mem_singleton] at hr
        subst hr
        exact hws'
    | some b =>
      obtain ⟨hn, hb, hbs, hmax⟩ := h
      refine ⟨hn, List.mem_append_left _ hb, hbs, ?_⟩
      intro r hr hrs
      rcases List.mem_append.mp hr with hr | hr
      · exact hmax r hr hrs
      · simp only [List.mem_singleton] at hr
        subst hr
        rw [hws'] at hrs
        cases hrs

theorem foldl_rootStep_inv (f : String) (l : List String) :
    ∀ (seen : List String) (acc : Option String × Int),
      RootInv f seen acc → RootInv f (seen ++ l) (l.foldl (rootStep f) acc) := by
  induction l with
  | nil =>
    intro seen acc h
    simpa using h
  | cons ws rest ih =>
    intro seen acc h
    have h1 := rootStep_inv h ws
    have h2 := ih (seen ++ [ws]) (rootStep f acc ws) h1
    simpa [List.append_assoc] using h2

theorem getWorkspaceRootForUri_inv (roots : List String) (f : String) :
    RootInv f roots (roots.foldl (rootStep f) (none, -1)) := by
  have h0 : RootInv f [] ((none : Option String), (-1 : Int)) := by
    exact ⟨rfl, by intro r hr; cases hr⟩
  simpa using foldl_rootStep_inv f roots [] (none, -1) h0

/-- C1. Root resolution determinism: if no candidate root is a string-prefix
of the file path, getWorkspaceRootForUri returns none; if some root matches
and has maximal path length among the matches, that root is returned (this
covers both the unique-match case and the several-matches case; two matching
roots of equal length are prefixes of the same string with the same length,
hence equal, so the first-encountered tie-break never changes the returned
value). -/
theorem getWorkspaceRootForUri_longest_match (roots : List String) (f : String) :
    ((∀ r ∈ roots, strStartsWith f r = false) →
        getWorkspaceRootForUri roots f = none) ∧
    (∀ r₀ ∈ roots, strStartsWith f r₀ = true →
        (∀ r ∈ roots, strStartsWith f r = true → r.data.length ≤ r₀.data.length) →
        getWorkspaceRootForUri roots f = some r₀) := by
  constructor
  · intro hnone
    cases roots with
    | nil => rfl
    | cons a rest =>
      have hinv := getWorkspaceRootForUri_inv (a :: rest) f
      rcases hacc : (a :: rest).foldl (rootStep f) (none, -1) with ⟨best, n⟩
      rw [hacc] at hinv
      cases best with
      | none => simp [getWorkspaceRootForUri, hacc]
      | some b =>
        obtain ⟨_, hb, hbs, _⟩ := hinv
        rw [hnone b hb] at hbs
        cases hbs
  · intro r₀ hr₀ hs₀ hmax
    cases roots with
    | nil => cases hr₀
    | cons a rest =>
      have hinv := getWorkspaceRootForUri_inv (a :: rest) f
      rcases hacc : (a :: rest).foldl (rootStep f) (none, -1) with ⟨best, n⟩
      rw [hacc] at hinv
      cases best with
      | none =>
        obtain ⟨_, hall⟩ := hinv
        rw [hall r₀ hr₀] at hs₀
        cases hs₀
      | some b =>
        obtain ⟨_, hb, hbs, hbmax⟩ := hinv
        have h1 : b.data.length ≤ r₀.data.length := hmax b hb hbs
        have h2 : r₀.data.length ≤ b.data.length := hbmax r₀ hr₀ hs₀
        have hlen : b.data.length = r₀.data.length := Nat.le_antisymm h1 h2
        have hdata : b.data = r₀.data :=
          prefix_eq_of_length_eq ((strStartsWith_iff f b).mp hbs)
            ((strStartsWith_iff f r₀).mp hs₀) hlen
        have hbr : b = r₀ := string_eq_of_data_eq hdata
        simp [getWorkspaceRootForUri, hacc, hbr]

/-- Closed instance of C1: with roots /ws and /ws/sub, the file
/ws/sub/a.txt resolves to the longer matching root /ws/sub. -/
theorem getWorkspaceRootForUri_longest_match_witness :
    getWorkspaceRootForUri ["/ws", "/ws/sub"] "/ws/sub/a.txt" = some "/ws/sub" :=
  (getWorkspaceRootForUri_longest_match ["/ws", "/ws/sub"] "/ws/sub/a.txt").2
    "/ws/sub" (by simp) (by decide) (by decide)

/-- C2. The source resolves roots by raw startsWith string comparison, so the
root /foo/bar, which is a string-prefix but not a path-segment ancestor of
/foo/barbaz, is nevertheless returned — contradicting the boundary-aware
containment property and the doc comment of the function, which promises the
folder that contains the file. -/
theorem getWorkspaceRootForUri_string_prefix_bug :
    getWorkspaceRootForUri ["/foo/bar"] "/foo/barbaz" = some "/foo/bar" := by
  decide

/-! ## BinaryDetector: isLikelyBinary (src/src/extension.ts:11-48)

The source opens the file and reads at most the first 1024 bytes into a
buffer; `readBytes = none` models the open or read call throwing (permission
denied, I/O error), `some bs` models a successful read of a file whose full
byte content is `bs` (the read returns `min 1024 bs.length` bytes). Non-file
URI schemes are reported as not binary before any read. -/

/-- Model of isLikelyBinary. -/
def isLikelyBinary (scheme : String) (readBytes : Option (List Nat)) : Bool :=
  if scheme ≠ "file" then false
  else
    match readBytes with
    | none => true
    | some bs =>
      let chunk := bs.take 1024
      if chunk.length = 0 then false
      else chunk.any (fun b => b == 0)

/-- C3. BinaryDetector contract for filesystem files: an empty file is
classified text; a non-empty file is classified binary exactly when a null
byte occurs among the (at most) first 1024 bytes read; a failed read is
classified binary (fails open). -/
theorem isLikelyBinary_spec :
    (∀ bs : List Nat, bs = [] → isLikelyBinary "file" (some bs) = false) ∧
    (∀ bs : List Nat, bs ≠ [] →
        (isLikelyBinary "file" (some bs) = true ↔ 0 ∈ bs.take 1024)) ∧
    isLikelyBinary "file" none = true := by
  refine ⟨?_, ?_, rfl⟩
  · intro bs h
    subst h
    rfl
  · intro bs h
    have hnil : bs.take 1024 ≠ [] := by
      cases bs with
      | nil => exact absurd rfl h
      | cons a l => simp [List.take]
    have hlen : ¬((bs.take 1024).length = 0) := by
      simpa [List.length_eq_zero] using hnil
    simp only [isLikelyBinary, ne_eq, not_true_eq_false, if_false, hlen,
      if_neg, List.any_eq_true, beq_iff_eq]
    constructor
    · rintro ⟨b, hb, rfl⟩
      exact hb
    · intro hb
      exact ⟨0, hb, rfl⟩

/-- Closed instance of C3: a file whose sixth byte is null is classified
binary. -/
theorem isLikelyBinary_spec_witness :
    isLikelyBinary "file" (some [72, 101, 108, 108, 111, 0]) = true :=
  (isLikelyBinary_spec.2.1 [72, 101, 108, 108, 111, 0] (by decide)).2 (by decide)

/-! ## PathFormatter: getRelativePathString (src/src/extension.ts:88-99)

The source returns `path.relative(root, filePath)` when a root was resolved
and the absolute `filePath` unchanged otherwise. The Node path library is
modelled on segment lists: `relSegs` is path.relative (common-prefix removal
plus ".." climbing) and `pathJoin` is path.join (concatenation followed by
normalization of "", "." and ".." segments). -/

/-- Splits a path string into its non-empty segments. -/
def splitChars (sep : Char) : List Char → List (List Char)
  | [] => [[]]
  | c :: cs =>
    let r := splitChars sep cs
    if c = sep then [] :: r
    else
      match r with
      | g :: gs => (c :: g) :: gs
      | [] => [[c]]

/-- Model of splitting an fsPath on the separator, dropping empty segments. -/
def splitPath (s : String) : List String :=
  ((splitChars '/' s.data).map (fun cs => String.mk cs)).filter (fun x => x ≠ "")

/-- Joins segments with the separator (no leading slash), as Node renders a
relative path. -/
def joinWithSlash : List String → String
  | [] => ""
  | [s] => s
  | s :: rest => s ++ "/" ++ joinWithSlash rest

/-- Length of the common segment prefix of two paths (the loop at the heart
of Node path.relative). -/
def commonPrefixLen : List String → List String → Nat
  | a :: as, b :: bs => if a = b then commonPrefixLen as bs + 1 else 0
  | _, _ => 0

/-- Segment-level model of Node path.relative: climb out of the unshared part
of `fromSegs` with ".." segments, then descend into the unshared part of
`toSegs`. -/
def relSegs (fromSegs toSegs : List String) : List String :=
  let c := commonPrefixLen fromSegs toSegs
  List.replicate (fromSegs.length - c) ".." ++ toSegs.drop c

/-- Normalization performed by Node path.join on an absolute path: empty and
"." segments vanish, ".." pops the previous segment. -/
def normalizeSegs (segs : List String) : List String :=
  segs.foldl
    (fun acc s =>
      if s = "" ∨ s = "." then acc
      else if s = ".." then acc.dropLast
      else acc ++ [s])
    []

/-- Segment-level model of Node path.join on an absolute base. -/
def pathJoin (base rel : List String) : List String :=
  normalizeSegs (base ++ rel)

/-- String-level rendering of path.relative, used by the entry formatter. -/
def pathRelativeStr (fromPath toPath : String) : String :=
  joinWithSlash (relSegs (splitPath fromPath) (splitPath toPath))

/-- Model of getRelativePathString: relative to the resolved workspace root
when one exists, the absolute fsPath otherwise. -/
def getRelativePathString (filePath : String) (workspaceRoot : Option String) :
    String :=
  match workspaceRoot with
  | some r => pathRelativeStr r filePath
  | none => filePath

theorem commonPrefixLen_self_append (rs t : List String) :
    commonPrefixLen rs (rs ++ t) = rs.length := by
  induction rs with
  | nil =>
    cases t with
    | nil => rfl
    | cons a l => rfl
  | cons a l ih => simp [commonPrefixLen, ih]

theorem normalizeSegs_of_normal (l : List String) :
    (∀ s ∈ l, ¬(s = "" ∨ s = "." ∨ s = "..")) → normalizeSegs l = l := by
  have key : ∀ (l : List String) (acc : List String),
      (∀ s ∈ l, ¬(s = "" ∨ s = "." ∨ s = "..")) →
      l.foldl
        (fun acc s =>
          if s = "" ∨ s = "." then acc
          else if s = ".." then acc.dropLast
          else acc ++ [s])
        acc = acc ++ l := by
    intro l
    induction l with
    | nil =>
      intro acc _
      simp
    | cons a rest ih =>
      intro acc h
      have ha := h a (by simp)
      have h1 : ¬(a = "" ∨ a = ".") := by
        intro hx
        rcases hx with hx | hx
        · exact ha (Or.inl hx)
        · exact ha (Or.inr (Or.inl hx))
      have h2 : ¬(a = "..") := fun hx => ha (Or.inr (Or.inr hx))
      simp only [List.foldl_cons, if_neg h1, if_neg h2]
      rw [ih (acc ++ [a]) (fun s hs => h s (by simp [hs]))]
      simp
  intro h
  simpa using key l [] h

/-- C4. Relative round-trip: when no workspace root is resolved,
getRelativePathString returns the absolute path unchanged; rendering the
relative path is joining its segments; and for every file path lying under a
root (segment-wise, with ordinary segments), path.join applied to the root
and path.relative of the pair reconstructs the file path. -/
theorem relative_roundtrip :
    (∀ f : String, getRelativePathString f none = f) ∧
    (∀ r f : String, getRelativePathString f (some r) =
        joinWithSlash (relSegs (splitPath r) (splitPath f))) ∧
    (∀ rs fs : List String,
        (∀ s ∈ fs, ¬(s = "" ∨ s = "." ∨ s = "..")) →
        (∃ t, rs ++ t = fs) →
        pathJoin rs (relSegs rs fs) = fs) := by
  refine ⟨fun f => rfl, fun r f => rfl, ?_⟩
  intro rs fs hnorm hunder
  obtain ⟨t, rfl⟩ := hunder
  unfold relSegs
  rw [commonPrefixLen_self_append]
  simp only [Nat.sub_self, List.replicate_zero, List.nil_append,
    List.drop_left]
  unfold pathJoin
  exact normalizeSegs_of_normal _ hnorm

/-- Closed instance of C4: /ws/sub/b.txt under root /ws round-trips. -/
theorem relative_roundtrip_witness :
    pathJoin ["ws"] (relSegs ["ws"] ["ws", "sub", "b.txt"]) =
      ["ws", "sub", "b.txt"] :=
  relative_roundtrip.2.2 ["ws"] ["ws", "sub", "b.txt"] (by decide)
    ⟨["sub", "b.txt"], rfl⟩

/-! ## EntryFormatter: formatFileContentForClipboard (src/src/extension.ts:108-112) -/

/-- Model of path.basename: the last non-empty segment of the path. -/
def baseName (p : String) : String :=
  (splitPath p).getLastD p

/-- Model of formatFileContentForClipboard: resolves the workspace root for
the file, derives the display path, and wraps path and content into the
per-file transcript block. -/
def formatFileContentForClipboard (workspaceFolders : List String)
    (filePath : String) (fileContent : String) : String :=
  let workspaceRoot := getWorkspaceRootForUri workspaceFolders filePath
  let pathString := getRelativePathString filePath workspaceRoot
  "#### FILE: " ++ pathString ++ "\n```\n" ++ fileContent ++ "\n```\n\n"

/-! ## PreambleProvider: getPromptFileContent (src/src/extension.ts:121-168)

The configuration section llmCopier supplies includePromptFile (default
true) and globalPromptFilePath (default ""). The probe of a candidate
prompt file records the outcome of the stat call (`none` models a thrown
error, typically file-not-found) and of the subsequent read call. The
project-level probe is for prompt.txt at the first workspace root; it is
`none` when there is no workspace folder. -/

inductive FileKind where
  | file
  | directory
  | unknown
deriving DecidableEq

/-- Result of the stat-then-read attempt the source performs on one
candidate prompt file. -/
structure FsProbe where
  statR : Option FileKind
  readR : Option String
deriving DecidableEq

structure LlmCopierConfig where
  includePromptFile : Bool
  globalPromptFilePath : String
deriving DecidableEq

/-- The value the global branch of getPromptFileContent leaves in `content`:
the global file content if the path is configured, the stat reports a regular
file, and the read succeeds; the empty string otherwise (errors are caught
and only reported). -/
def globalPromptResult (cfg : LlmCopierConfig) (globalFile : FsProbe) : String :=
  if cfg.globalPromptFilePath = "" then ""
  else
    match globalFile.statR with
    | some FileKind.file =>
      match globalFile.readR with
      | some c => c
      | none => ""
    | _ => ""

/-- Model of getPromptFileContent. `projectFile` probes prompt.txt at the
first workspace root (`none`: no workspace folder is open). A readable
project-level file returns immediately with two newlines appended; otherwise
the global path is consulted and its content is returned with two newlines
appended only when it is non-empty (the final JavaScript truthiness check). -/
def getPromptFileContent (cfg : LlmCopierConfig) (projectFile : Option FsProbe)
    (globalFile : FsProbe) : String :=
  if !cfg.includePromptFile then ""
  else
    let fallback :=
      let content := globalPromptResult cfg globalFile
      if content = "" then "" else content ++ "\n\n"
    match projectFile with
    | some pf =>
      match pf.statR, pf.readR with
      | some FileKind.file, some c => c ++ "\n\n"
      | _, _ => fallback
    | none => fallback

/-! ## FolderWalker: readFolderRecursively (src/src/extension.ts:417-451)

The filesystem under a folder is modelled as a tree: a file node carries the
outcome of the binary-check read and of the content read, a directory node
carries the outcome of the readDirectory listing (`none`: the listing call
threw). Diagnostics distinguish the warning messages (showWarningMessage)
from the error messages (showErrorMessage) of the source. -/

inductive FSNode where
  | file (bytes : Option (List Nat)) (text : Option String)
  | dir (listing : Option (List (String × FSNode)))

inductive Diag where
  | warn (msg : String)
  | err (msg : String)
deriving DecidableEq

mutual

/-- Model of readFolderRecursively: the emitted entry blocks and the surfaced
diagnostics, in traversal order. A failed listing of the folder itself
(also the case of a non-directory target, where readDirectory throws)
contributes no entries and one error message. -/
def readFolderRecursively (workspaceFolders : List String) (folderPath : String) :
    FSNode → List String × List Diag
  | FSNode.dir (some l) => walkEntries workspaceFolders folderPath l
  | FSNode.dir none =>
    ([], [Diag.err ("Could not read directory " ++ baseName folderPath ++
        ". Check permissions.")])
  | FSNode.file _ _ =>
    ([], [Diag.err ("Could not read directory " ++ baseName folderPath ++
        ". Check permissions.")])

/-- The loop over the listing of one directory. -/
def walkEntries (workspaceFolders : List String) (folderPath : String) :
    List (String × FSNode) → List String × List Diag
  | [] => ([], [])
  | e :: rest =>
    let h := walkEntry workspaceFolders folderPath e
    let t := walkEntries workspaceFolders folderPath rest
    (h.1 ++ t.1, h.2 ++ t.2)

/-- One iteration of the listing loop. An entry named prompt.txt directly in
the folder being walked is skipped before the type dispatch (the second
conjunct of the source condition, comparing the joined fsPath, is identically
true for a direct child). Binary files and files whose read fails are skipped
with a warning; subdirectories are walked recursively. -/
def walkEntry (workspaceFolders : List String) (folderPath : String) :
    String × FSNode → List String × List Diag
  | (name, node) =>
    if name = "prompt.txt" then ([], [])
    else
      match node with
      | FSNode.file bytes text =>
        if isLikelyBinary "file" bytes then
          ([], [Diag.warn ("Skipped binary file: " ++ name)])
        else
          match text with
          | some content =>
            ([formatFileContentForClipboard workspaceFolders
                (folderPath ++ "/" ++ name) content], [])
          | none =>
            ([], [Diag.warn ("Could not read file " ++ name ++ " in " ++
                folderPath ++ ".")])
      | FSNode.dir _ =>
        readFolderRecursively workspaceFolders (folderPath ++ "/" ++ name) node

end

theorem walkEntries_append (workspaceFolders : List String) (folderPath : String)
    (l₁ l₂ : List (String × FSNode)) :
    walkEntries workspaceFolders folderPath (l₁ ++ l₂) =
      ((walkEntries workspaceFolders folderPath l₁).1 ++
        (walkEntries workspaceFolders folderPath l₂).1,
       (walkEntries workspaceFolders folderPath l₁).2 ++
        (walkEntries workspaceFolders folderPath l₂).2) := by
  induction l₁ with
  | nil => simp [walkEntries]
  | cons e rest ih => simp [walkEntries, ih]

/-- Shared helper: an entry whose per-entry contribution has no entry blocks
drops out of the walk of its directory without disturbing its siblings. -/
theorem walk_skip_middle (workspaceFolders : List String) (folderPath : String)
    (pre post : List (String × FSNode)) (e : String × FSNode)
    (h : (walkEntry workspaceFolders folderPath e).1 = []) :
    (readFolderRecursively workspaceFolders folderPath
        (FSNode.dir (some (pre ++ e :: post)))).1 =
      (walkEntries workspaceFolders folderPath pre).1 ++
        (walkEntries workspaceFolders folderPath post).1 := by
  have h1 : readFolderRecursively workspaceFolders folderPath
      (FSNode.dir (some (pre ++ e :: post))) =
      walkEntries workspaceFolders folderPath (pre ++ e :: post) := by
    simp [readFolderRecursively]
  rw [h1, walkEntries_append]
  simp [walkEntries, h]

/-- C5. Exclusion scope: an entry named prompt.txt directly inside the folder
being walked contributes nothing to the entries of the walk, wherever it
occurs in the listing; while getPromptFileContent, given a readable
project-root prompt.txt, still returns its content (with the two-newline
suffix) — the provider takes no walk as input at all. -/
theorem promptTxt_exclusion_scope :
    (∀ (workspaceFolders : List String) (folderPath : String)
        (pre post : List (String × FSNode)) (node : FSNode),
        (readFolderRecursively workspaceFolders folderPath
            (FSNode.dir (some (pre ++ ("prompt.txt", node) :: post)))).1 =
          (walkEntries workspaceFolders folderPath pre).1 ++
            (walkEntries workspaceFolders folderPath post).1) ∧
    (∀ (g c : String) (globalFile : FsProbe),
        getPromptFileContent ⟨true, g⟩
          (some ⟨some FileKind.file, some c⟩) globalFile = c ++ "\n\n") := by
  constructor
  · intro workspaceFolders folderPath pre post node
    apply walk_skip_middle
    simp [walkEntry]
  · intro g c globalFile
    simp [getPromptFileContent]

/-- Predicate for a file entry whose processing fails during the walk: either
the binary-check read throws (the detector then fails open and the file is
skipped with a warning), or the detector passes the file as text and the
content read throws. -/
def IsFailingFileEntry : FSNode → Prop
  | FSNode.file none _ => True
  | FSNode.file (some bs) none => isLikelyBinary "file" (some bs) = false
  | FSNode.file (some _) (some _) => False
  | FSNode.dir _ => False

/-- C7 (amended). Walk failure recovery: a failing file entry contributes no
entry blocks and exactly one warning, and the walk still produces the entries
of all its siblings; a failing subdirectory likewise contributes no entry
blocks while surfacing an error message (showErrorMessage, not a warning) and
leaving the siblings intact; a failure to list the requested top-level folder
itself yields zero entries together with an error report. -/
theorem walk_failure_recovery :
    (∀ (workspaceFolders : List String) (folderPath : String)
        (pre post : List (String × FSNode)) (name : String) (node : FSNode),
        name ≠ "prompt.txt" → IsFailingFileEntry node →
        ((readFolderRecursively workspaceFolders folderPath
            (FSNode.dir (some (pre ++ (name, node) :: post)))).1 =
          (walkEntries workspaceFolders folderPath pre).1 ++
            (walkEntries workspaceFolders folderPath post).1 ∧
          ∃ m, walkEntry workspaceFolders folderPath (name, node) =
            ([], [Diag.warn m]))) ∧
    (∀ (workspaceFolders : List String) (folderPath : String)
        (pre post : List (String × FSNode)) (name : String),
        name ≠ "prompt.txt" →
        ((readFolderRecursively workspaceFolders folderPath
            (FSNode.dir (some (pre ++ (name, FSNode.dir none) :: post)))).1 =
          (walkEntries workspaceFolders folderPath pre).1 ++
            (walkEntries workspaceFolders folderPath post).1 ∧
          ∃ m, walkEntry workspaceFolders folderPath (name, FSNode.dir none) =
            ([], [Diag.err m]))) ∧
    (∀ (workspaceFolders : List String) (folderPath : String),
        readFolderRecursively workspaceFolders folderPath (FSNode.dir none) =
          ([], [Diag.err ("Could not read directory " ++ baseName folderPath ++
              ". Check permissions.")])) := by
  refine ⟨?_, ?_, ?_⟩
  · intro workspaceFolders folderPath pre post name node hname hfail
    have hentry : ∃ m, walkEntry workspaceFolders folderPath (name, node) =
        ([], [Diag.warn m]) := by
      cases node with
      | file bytes text =>
        cases bytes with
        | none =>
          refine ⟨"Skipped binary file: " ++ name, ?_⟩
          simp [walkEntry, hname, isLikelyBinary]
        | some bs =>
          cases text with
          | none =>
            have hbin : isLikelyBinary "file" (some bs) = false := hfail
            refine ⟨"Could not read file " ++ name ++ " in " ++ folderPath ++
              ".", ?_⟩
            simp [walkEntry, hname, hbin]
          | some c => exact absurd hfail (by simp [IsFailingFileEntry])
      | dir listing => exact absurd hfail (by simp [IsFailingFileEntry])
    obtain ⟨m, hm⟩ := hentry
    refine ⟨?_, ⟨m, hm⟩⟩
    apply walk_skip_middle
    rw [hm]
  · intro workspaceFolders folderPath pre post name hname
    have hentry : walkEntry workspaceFolders folderPath (name, FSNode.dir none) =
        ([], [Diag.err ("Could not read directory " ++
          baseName (folderPath ++ "/" ++ name) ++ ". Check permissions.")]) := by
      simp [walkEntry, hname, readFolderRecursively]
    refine ⟨?_, ⟨_, hentry⟩⟩
    apply walk_skip_middle
    rw [hentry]
  · intro workspaceFolders folderPath
    simp [readFolderRecursively]

/-- Closed instance of C7: a file whose binary-check read throws is skipped
with a warning and contributes nothing, leaving its (empty) sibling lists
intact. -/
theorem walk_failure_recovery_witness :
    (readFolderRecursively [] "/ws"
        (FSNode.dir (some [("bad.bin", FSNode.file none none)]))).1 =
      (walkEntries [] "/ws" []).1 ++ (walkEntries [] "/ws" []).1 ∧
    ∃ m, walkEntry [] "/ws" ("bad.bin", FSNode.file none none) =
      ([], [Diag.warn m]) :=
  walk_failure_recovery.1 [] "/ws" [] [] "bad.bin" (FSNode.file none none)
    (by decide) trivial

/-- C7 counterexample to the claim as stated: when listing a subdirectory
fails, the walk surfaces an error message (showErrorMessage) and no warning
at all — the claim announces a warning for this case. -/
theorem readFolderRecursively_subdir_error_counterexample :
    readFolderRecursively [] "/ws"
        (FSNode.dir (some [("sub", FSNode.dir none)])) =
      ([], [Diag.err ("Could not read directory " ++
          baseName ("/ws" ++ "/" ++ "sub") ++ ". Check permissions.")]) := by
  simp [readFolderRecursively, walkEntries, walkEntry]

/-- The project-level prompt.txt attempt does not return early: there is no
workspace folder, or the stat does not report a regular file (it threw, or
the path is a directory or other resource), or the content read threw. -/
def ProjectPromptUnavailable : Option FsProbe → Prop
  | none => True
  | some pf => pf.statR ≠ some FileKind.file ∨ pf.readR = none

/-- C6 (amended). Preamble priority: when includePromptFile is false the
provider returns the empty string immediately; a readable project-level
prompt.txt wins outright — its content plus two newlines is returned whatever
the global probe holds; when the project-level file is unavailable, the
configured global path is read, and its content plus two newlines is returned
when that content is non-empty; the empty string is returned when the global
path is unset, when its stat or read fails, when its stat reports a
non-file, or when its content is empty. -/
theorem getPromptFileContent_priority :
    (∀ (pf : Option FsProbe) (gf : FsProbe) (g : String),
        getPromptFileContent ⟨false, g⟩ pf gf = "") ∧
    (∀ (g c : String) (gf : FsProbe),
        getPromptFileContent ⟨true, g⟩ (some ⟨some FileKind.file, some c⟩) gf =
          c ++ "\n\n") ∧
    (∀ pf : Option FsProbe, ProjectPromptUnavailable pf →
        ∀ (g c : String), g ≠ "" → c ≠ "" →
          getPromptFileContent ⟨true, g⟩ pf ⟨some FileKind.file, some c⟩ =
            c ++ "\n\n") ∧
    (∀ pf : Option FsProbe, ProjectPromptUnavailable pf →
        ∀ (g : String) (gf : FsProbe),
          (g = "" ∨ gf.statR ≠ some FileKind.file ∨ gf.readR = none ∨
            gf.readR = some "") →
          getPromptFileContent ⟨true, g⟩ pf gf = "") := by
  refine ⟨?_, ?_, ?_, ?_⟩
  · intro pf gf g
    simp [getPromptFileContent]
  · intro g c gf
    simp [getPromptFileContent]
  · intro pf hpf g c hg hc
    have hglobal : globalPromptResult ⟨true, g⟩ ⟨some FileKind.file, some c⟩ = c := by
      simp [globalPromptResult, hg]
    have hfb : (if globalPromptResult ⟨true, g⟩ ⟨some FileKind.file, some c⟩ = ""
        then "" else globalPromptResult ⟨true, g⟩ ⟨some FileKind.file, some c⟩ ++
          "\n\n") = c ++ "\n\n" := by
      rw [hglobal, if_neg hc]
    cases pf with
    | none =>
      simpa [getPromptFileContent] using hfb
    | some p =>
      obtain ⟨st, rd⟩ := p
      rcases hpf with hst | hrd
      · cases st with
        | none => simpa [getPromptFileContent] using hfb
        | some k =>
          cases k with
          | file => exact absurd rfl hst
          | directory => simpa [getPromptFileContent] using hfb
          | unknown => simpa [getPromptFileContent] using hfb
      · simp only at hrd
        subst hrd
        cases st with
        | none => simpa [getPromptFileContent] using hfb
        | some k =>
          cases k with
          | file => simpa [getPromptFileContent] using hfb
          | directory => simpa [getPromptFileContent] using hfb
          | unknown => simpa [getPromptFileContent] using hfb
  · intro pf hpf g gf hbad
    have hglobal : (if globalPromptResult ⟨true, g⟩ gf = "" then ""
        else globalPromptResult ⟨true, g⟩ gf ++ "\n\n") = "" := by
      rcases hbad with hg | hst | hrd | hrd
      · simp [globalPromptResult, hg]
      · obtain ⟨st, rd⟩ := gf
        simp only at hst
        cases st with
        | none => simp [globalPromptResult]
        | some k =>
          cases k with
          | file => exact absurd rfl hst
          | directory => simp [globalPromptResult]
          | unknown => simp [globalPromptResult]
      · obtain ⟨st, rd⟩ := gf
        simp only at hrd
        subst hrd
        cases st with
        | none => simp [globalPromptResult]
        | some k => cases k <;> simp [globalPromptResult]
      · obtain ⟨st, rd⟩ := gf
        simp only at hrd
        subst hrd
        cases st with
        | none => simp [globalPromptResult]
        | some k => cases k <;> simp [globalPromptResult]
    cases pf with
    | none => simpa [getPromptFileContent] using hglobal
    | some p =>
      obtain ⟨st, rd⟩ := p
      rcases hpf with hst | hrd
      · cases st with
        | none => simpa [getPromptFileContent] using hglobal
        | some k =>
          cases k with
          | file => exact absurd rfl hst
          | directory => simpa [getPromptFileContent] using hglobal
          | unknown => simpa [getPromptFileContent] using hglobal
      · simp only at hrd
        subst hrd
        cases st with
        | none => simpa [getPromptFileContent] using hglobal
        | some k => cases k <;> simpa [getPromptFileContent] using hglobal

/-- Closed instance of C6 (amended): project prompt.txt missing, global file
readable with non-empty content G, so G plus two newlines is returned. -/
theorem getPromptFileContent_priority_witness :
    getPromptFileContent ⟨true, "/g/p.txt"⟩ (some ⟨none, none⟩)
      ⟨some FileKind.file, some "G"⟩ = "G" ++ "\n\n" :=
  getPromptFileContent_priority.2.2.1 (some ⟨none, none⟩) (Or.inr rfl)
    "/g/p.txt" "G" (by decide) (by decide)

/-- C6 counterexample to the claim as stated: the project-level file is
absent, the global prompt file is configured, exists and reads successfully,
but its content is the empty string; the function returns the empty string
rather than the successful content suffixed with two newlines. -/
theorem getPromptFileContent_global_empty_counterexample :
    getPromptFileContent ⟨true, "/g/prompt.txt"⟩ (some ⟨none, none⟩)
      ⟨some FileKind.file, some ""⟩ = "" := by
  rfl

/-! ## Command handler: copyFileNamesAndContent (src/src/extension.ts:266-329)

One explicitly selected item carries its fsPath, the outcome of the stat call
(`none`: stat threw; `some b`: whether isFile() held), the bytes available to
the binary check and the outcome of the content read. The handler result
distinguishes the four terminal paths of the source; only the `copied`
constructor writes the clipboard sink. -/

structure SelItem where
  path : String
  statIsFile : Option Bool
  bytes : Option (List Nat)
  text : Option String
deriving DecidableEq

inductive CopyFilesResult where
  | noSelection
  | noFiles
  | nothingCopied
  | copied (clipboard : String) (count : Nat)
deriving DecidableEq

/-- The selection fallback at the top of the handler: the multi-selection if
non-empty, else the context item, else nothing. -/
def filesToProcessOf (currentFile : Option SelItem) (selectedFiles : List SelItem) :
    List SelItem :=
  match selectedFiles with
  | _ :: _ => selectedFiles
  | [] =>
    match currentFile with
    | some f => [f]
    | none => []

/-- The pre-filter loop: an item survives when its stat succeeded, reported a
regular file, and the binary check passed (stat errors and directories are
dropped, binary files are dropped with a warning). -/
def passesFilter (it : SelItem) : Bool :=
  match it.statIsFile with
  | some true => !(isLikelyBinary "file" it.bytes)
  | _ => false

/-- The entry blocks the read loop pushes: one formatted block per surviving
item whose content read succeeds (read failures only warn). -/
def contentEntries (workspaceFolders : List String) (items : List SelItem) :
    List String :=
  (items.filter passesFilter).filterMap
    (fun it => it.text.map
      (fun c => formatFileContentForClipboard workspaceFolders it.path c))

/-- Model of the copyFileNamesAndContent handler (the emptiness tests mirror
the length-is-zero checks of the source). -/
def copyFileNamesAndContent (workspaceFolders : List String)
    (promptContent : String) (currentFile : Option SelItem)
    (selectedFiles : List SelItem) : CopyFilesResult :=
  let filesToProcess := filesToProcessOf currentFile selectedFiles
  if filesToProcess.isEmpty then CopyFilesResult.noSelection
  else if (filesToProcess.filter passesFilter).isEmpty then
    CopyFilesResult.noFiles
  else
    let entries := contentEntries workspaceFolders filesToProcess
    let clipboardContent :=
      (if promptContent = "" then [] else [promptContent]) ++ entries
    let filesCopiedCount :=
      clipboardContent.length - (if promptContent = "" then 0 else 1)
    if 0 < filesCopiedCount then
      CopyFilesResult.copied (String.join clipboardContent) filesCopiedCount
    else CopyFilesResult.nothingCopied

/-! ## Command handler: copyFolderContent (src/src/extension.ts:454-513) -/

structure FolderItem where
  path : String
  statIsDir : Option Bool
  node : FSNode

inductive CopyFolderResult where
  | noFolders
  | noValidFolders
  | nothingFound
  | copied (clipboard : String) (count : Nat)

/-- The selection fallback at the top of the folder handler. -/
def foldersToCopyOf (contextUri : Option FolderItem)
    (selectedUris : List FolderItem) : List FolderItem :=
  match selectedUris with
  | _ :: _ => selectedUris
  | [] =>
    match contextUri with
    | some u => [u]
    | none => []

/-- The stat validation pass: an item survives when stat succeeded and
reported a directory (stat errors only warn and drop the item). -/
def validFoldersOf (folders : List FolderItem) : List FolderItem :=
  folders.filter (fun it => it.statIsDir = some true)

/-- All entry blocks collected across the validated folders, in order. -/
def folderEntries (workspaceFolders : List String) (folders : List FolderItem) :
    List String :=
  (folders.map
    (fun it => (readFolderRecursively workspaceFolders it.path it.node).1)).flatten

/-- Model of the copyFolderContent handler; allFilesCount accumulates the
per-folder entry-list lengths exactly as the += loop of the source does. -/
def copyFolderContent (workspaceFolders : List String) (promptContent : String)
    (contextUri : Option FolderItem) (selectedUris : List FolderItem) :
    CopyFolderResult :=
  let foldersToCopy := foldersToCopyOf contextUri selectedUris
  if foldersToCopy.isEmpty then CopyFolderResult.noFolders
  else
    let actualFoldersToProcess := validFoldersOf foldersToCopy
    if actualFoldersToProcess.isEmpty then CopyFolderResult.noValidFolders
    else
      let allFilesCount :=
        (actualFoldersToProcess.map
          (fun it =>
            (readFolderRecursively workspaceFolders it.path it.node).1.length)).sum
      let allClipboardContent :=
        (if promptContent = "" then [] else [promptContent]) ++
          folderEntries workspaceFolders actualFoldersToProcess
      if 0 < allFilesCount then
        CopyFolderResult.copied (String.join allClipboardContent) allFilesCount
      else CopyFolderResult.nothingFound

/-- C8. Count accuracy: whenever either aggregation handler reports a copied
outcome, the reported file count equals the number of formatted file-entry
blocks of the run, and the delivered transcript is exactly the optional
preamble block followed by those entry blocks — so the count excludes the
preamble. -/
theorem count_accuracy :
    (∀ (workspaceFolders : List String) (promptContent : String)
        (currentFile : Option SelItem) (selectedFiles : List SelItem)
        (clip : String) (n : Nat),
        copyFileNamesAndContent workspaceFolders promptContent currentFile
            selectedFiles = CopyFilesResult.copied clip n →
        n = (contentEntries workspaceFolders
              (filesToProcessOf currentFile selectedFiles)).length ∧
        clip = String.join
          ((if promptContent = "" then [] else [promptContent]) ++
            contentEntries workspaceFolders
              (filesToProcessOf currentFile selectedFiles))) ∧
    (∀ (workspaceFolders : List String) (promptContent : String)
        (contextUri : Option FolderItem) (selectedUris : List FolderItem)
        (clip : String) (n : Nat),
        copyFolderContent workspaceFolders promptContent contextUri
            selectedUris = CopyFolderResult.copied clip n →
        n = (folderEntries workspaceFolders
              (validFoldersOf (foldersToCopyOf contextUri selectedUris))).length ∧
        clip = String.join
          ((if promptContent = "" then [] else [promptContent]) ++
            folderEntries workspaceFolders
              (validFoldersOf (foldersToCopyOf contextUri selectedUris)))) := by
  constructor
  · intro ws prompt cur sel clip n h
    simp only [copyFileNamesAndContent] at h
    split at h
    · cases h
    · split at h
      · cases h
      · by_cases hp : prompt = ""
        · simp only [if_pos hp] at h ⊢
          split at h
          · cases h
            exact ⟨by simp, rfl⟩
          · cases h
        · simp only [if_neg hp] at h ⊢
          split at h
          · cases h
            refine ⟨?_, rfl⟩
            simp [Nat.add_sub_cancel_left]
          · cases h
  · intro ws prompt ctx sel clip n h
    simp only [copyFolderContent] at h
    split at h
    · cases h
    · split at h
      · cases h
      · by_cases hp : prompt = ""
        · simp only [if_pos hp] at h ⊢
          split at h
          · cases h
            refine ⟨?_, rfl⟩
            simp only [folderEntries, List.length_flatten, List.map_map]
            rfl
          · cases h
        · simp only [if_neg hp] at h ⊢
          split at h
          · cases h
            refine ⟨?_, rfl⟩
            simp only [folderEntries, List.length_flatten, List.map_map]
            rfl
          · cases h

/-- Closed instance of C8: one readable text file copied, reported count 1,
transcript equal to its single entry block. -/
theorem count_accuracy_witness :
    (1 : Nat) = (contentEntries []
        (filesToProcessOf none [⟨"/a.txt", some true, some [65], some "A"⟩])).length ∧
    String.join [formatFileContentForClipboard [] "/a.txt" "A"] =
      String.join ((if ("" : String) = "" then [] else [("" : String)]) ++
        contentEntries []
          (filesToProcessOf none [⟨"/a.txt", some true, some [65], some "A"⟩])) :=
  count_accuracy.1 [] "" none [⟨"/a.txt", some true, some [65], some "A"⟩]
    (String.join [formatFileContentForClipboard [] "/a.txt" "A"]) 1 (by decide)

/-- C10. An aggregation over a non-empty selection that produces zero entry
blocks ends in one of the informational nothing-to-copy outcomes — never in
an error outcome (noFolders, the only error-message outcome of these
handlers, requires an empty selection) — and never in the copied outcome, the
only one that writes the clipboard sink; in particular a non-empty fetched
preamble alone is never delivered. -/
theorem empty_outcome_not_error :
    (∀ (workspaceFolders : List String) (promptContent : String)
        (currentFile : Option SelItem) (selectedFiles : List SelItem),
        filesToProcessOf currentFile selectedFiles ≠ [] →
        contentEntries workspaceFolders
            (filesToProcessOf currentFile selectedFiles) = [] →
        (copyFileNamesAndContent workspaceFolders promptContent currentFile
              selectedFiles = CopyFilesResult.noFiles ∨
          copyFileNamesAndContent workspaceFolders promptContent currentFile
              selectedFiles = CopyFilesResult.nothingCopied) ∧
        ∀ (clip : String) (n : Nat),
          copyFileNamesAndContent workspaceFolders promptContent currentFile
              selectedFiles ≠ CopyFilesResult.copied clip n) ∧
    (∀ (workspaceFolders : List String) (promptContent : String)
        (contextUri : Option FolderItem) (selectedUris : List FolderItem),
        foldersToCopyOf contextUri selectedUris ≠ [] →
        folderEntries workspaceFolders
            (validFoldersOf (foldersToCopyOf contextUri selectedUris)) = [] →
        (copyFolderContent workspaceFolders promptContent contextUri
              selectedUris = CopyFolderResult.noValidFolders ∨
          copyFolderContent workspaceFolders promptContent contextUri
              selectedUris = CopyFolderResult.nothingFound) ∧
        ∀ (clip : String) (n : Nat),
          copyFolderContent workspaceFolders promptContent contextUri
              selectedUris ≠ CopyFolderResult.copied clip n) := by
  constructor
  · intro ws prompt cur sel hne hzero
    have h1 : (filesToProcessOf cur sel).isEmpty = false := by
      cases hftp : filesToProcessOf cur sel with
      | nil => exact absurd hftp hne
      | cons f fs => rfl
    have hres : copyFileNamesAndContent ws prompt cur sel =
        CopyFilesResult.noFiles ∨
        copyFileNamesAndContent ws prompt cur sel =
        CopyFilesResult.nothingCopied := by
      by_cases h2 : ((filesToProcessOf cur sel).filter passesFilter).isEmpty = true
      · left
        simp [copyFileNamesAndContent, h1, h2]
      · right
        have h2' : ((filesToProcessOf cur sel).filter passesFilter).isEmpty = false := by
          cases hx : ((filesToProcessOf cur sel).filter passesFilter).isEmpty
          · rfl
          · exact absurd hx h2
        by_cases hp : prompt = "" <;>
          simp [copyFileNamesAndContent, h1, h2', hzero, hp]
    refine ⟨hres, ?_⟩
    intro clip n hcop
    rcases hres with hres | hres <;> rw [hres] at hcop <;> cases hcop
  · intro ws prompt ctx sel hne hzero
    have h1 : (foldersToCopyOf ctx sel).isEmpty = false := by
      cases hftp : foldersToCopyOf ctx sel with
      | nil => exact absurd hftp hne
      | cons f fs => rfl
    have hres : copyFolderContent ws prompt ctx sel =
        CopyFolderResult.noValidFolders ∨
        copyFolderContent ws prompt ctx sel =
        CopyFolderResult.nothingFound := by
      by_cases h2 : (validFoldersOf (foldersToCopyOf ctx sel)).isEmpty = true
      · left
        simp [copyFolderContent, h1, h2]
      · right
        have h2' : (validFoldersOf (foldersToCopyOf ctx sel)).isEmpty = false := by
          cases hx : (validFoldersOf (foldersToCopyOf ctx sel)).isEmpty
          · rfl
          · exact absurd hx h2
        have hcount : ((validFoldersOf (foldersToCopyOf ctx sel)).map
            (fun it => (readFolderRecursively ws it.path it.node).1.length)).sum
            = 0 := by
          have hlen := congrArg List.length hzero
          simpa [folderEntries, List.map_map, Function.comp] using hlen
        simp [copyFolderContent, h1, h2', hcount]
    refine ⟨hres, ?_⟩
    intro clip n hcop
    rcases hres with hres | hres <;> rw [hres] at hcop <;> cases hcop

/-- Closed instance of C10: a single selected file whose binary-check read
throws is filtered out, and the run with a non-empty preamble ends in an
informational outcome. -/
theorem empty_outcome_not_error_witness :
    copyFileNamesAndContent [] "PRE" none [⟨"/bad", some true, none, none⟩] =
        CopyFilesResult.noFiles ∨
      copyFileNamesAndContent [] "PRE" none [⟨"/bad", some true, none, none⟩] =
        CopyFilesResult.nothingCopied :=
  (empty_outcome_not_error.1 [] "PRE" none [⟨"/bad", some true, none, none⟩]
    (by decide) (by decide)).1

/-! ## Config sync: updateRootFolderInConfig (src/src/extension.ts:176-240)

The external config file holds a JSON object, modelled as an association
list; a string value is the only shape the routine compares against, every
other JSON value is kept opaque as its serialized text. The prior state of
the file distinguishes the cases the source tolerates: a missing file
(ENOENT), a whitespace-only file (the trim check skips parsing), an
unreadable or unparseable file (reported, then treated as empty), and a
parsed object. -/

inductive JVal where
  | jstr (s : String)
  | jother (serialized : String)
deriving DecidableEq

abbrev ConfigObject := List (String × JVal)

inductive ConfigFileState where
  | missing
  | emptyFile
  | unreadable
  | parsed (obj : ConfigObject)

/-- The object the read phase of the routine ends with: only a successfully
parsed file contributes fields; every failure mode leaves the empty object. -/
def readConfigData : ConfigFileState → ConfigObject
  | ConfigFileState.parsed obj => obj
  | _ => []

/-- First-match association lookup, the access `configData.root_folder`. -/
def getField : ConfigObject → String → Option JVal
  | [], _ => none
  | (k', v) :: rest, k => if k' = k then some v else getField rest k

/-- The JavaScript property assignment `configData.root_folder = ...`: an
existing key is overwritten in place, a fresh key is appended at the end. -/
def setKey : ConfigObject → String → JVal → ConfigObject
  | [], k, v => [(k, v)]
  | (k', w) :: rest, k, v =>
    if k' = k then (k, v) :: rest
    else (k', w) :: setKey rest k v

/-- Model of updateRootFolderInConfig: returns the object written back to the
file, or none when nothing is written (path setting unset or empty, or the
stored root_folder already equals the current primary project root, the first
workspace folder's path, defaulting to the empty string). The source writes
the object serialized by JSON.stringify with two-space indentation; the write
is modelled at the object level. -/
def updateRootFolderInConfig (configFilePath : Option String)
    (workspaceFolders : List String) (st : ConfigFileState) :
    Option ConfigObject :=
  match configFilePath with
  | none => none
  | some p =>
    if p = "" then none
    else
      let currentRootFolder := (workspaceFolders.head?).getD ""
      let configData := readConfigData st
      if getField configData "root_folder" =
          some (JVal.jstr currentRootFolder) then none
      else some (setKey configData "root_folder" (JVal.jstr currentRootFolder))

theorem getField_setKey_self (obj : ConfigObject) (k : String) (v : JVal) :
    getField (setKey obj k v) k = some v := by
  induction obj with
  | nil => simp [setKey, getField]
  | cons a rest ih =>
    obtain ⟨k', w⟩ := a
    by_cases hk : k' = k
    · simp [setKey, hk, getField]
    · simp [setKey, hk, getField, ih]

theorem getField_setKey_other (obj : ConfigObject) (k k' : String) (v : JVal)
    (hne : k' ≠ k) : getField (setKey obj k v) k' = getField obj k' := by
  induction obj with
  | nil => simp [setKey, getField, Ne.symm hne]
  | cons a rest ih =>
    obtain ⟨ka, va⟩ := a
    by_cases hk : ka = k
    · subst hk
      simp [setKey, getField, Ne.symm hne]
    · simp [setKey, hk, getField, ih]

/-- C9. Config sync behaviour: a missing or whitespace-only file is treated
exactly as the empty JSON object; when the stored root_folder already holds
the current primary project root, nothing is written; whenever the file is
written, the new object holds the current root under root_folder and agrees
with the prior object on every other field; and no write happens only when
the path setting is absent or empty or the stored value was already equal. -/
theorem updateRootFolderInConfig_spec :
    (∀ (p : Option String) (ws : List String),
        updateRootFolderInConfig p ws ConfigFileState.missing =
          updateRootFolderInConfig p ws (ConfigFileState.parsed []) ∧
        updateRootFolderInConfig p ws ConfigFileState.emptyFile =
          updateRootFolderInConfig p ws (ConfigFileState.parsed [])) ∧
    (∀ (p : Option String) (ws : List String) (obj : ConfigObject),
        getField obj "root_folder" = some (JVal.jstr ((ws.head?).getD "")) →
        updateRootFolderInConfig p ws (ConfigFileState.parsed obj) = none) ∧
    (∀ (p : Option String) (ws : List String) (st : ConfigFileState)
        (written : ConfigObject),
        updateRootFolderInConfig p ws st = some written →
        getField written "root_folder" =
            some (JVal.jstr ((ws.head?).getD "")) ∧
        ∀ k, k ≠ "root_folder" →
          getField written k = getField (readConfigData st) k) ∧
    (∀ (p : Option String) (ws : List String) (st : ConfigFileState),
        updateRootFolderInConfig p ws st = none →
        p = none ∨ p = some "" ∨
        getField (readConfigData st) "root_folder" =
          some (JVal.jstr ((ws.head?).getD ""))) := by
  refine ⟨?_, ?_, ?_, ?_⟩
  · intro p ws
    exact ⟨rfl, rfl⟩
  · intro p ws obj h
    cases p with
    | none => rfl
    | some q =>
      simp only [updateRootFolderInConfig]
      by_cases hq : q = ""
      · rw [if_pos hq]
      · rw [if_neg hq]
        simp [readConfigData, h]
  · intro p ws st written h
    cases p with
    | none => cases h
    | some q =>
      simp only [updateRootFolderInConfig] at h
      by_cases hq : q = ""
      · rw [if_pos hq] at h
        cases h
      · rw [if_neg hq] at h
        split at h
        · cases h
        · cases h
          refine ⟨getField_setKey_self _ _ _, ?_⟩
          intro k hk
          exact getField_setKey_other _ _ _ _ hk
  · intro p ws st h
    cases p with
    | none => exact Or.inl rfl
    | some q =>
      simp only [updateRootFolderInConfig] at h
      by_cases hq : q = ""
      · exact Or.inr (Or.inl (by rw [hq]))
      · rw [if_neg hq] at h
        split at h
        · rename_i heq
          exact Or.inr (Or.inr heq)
        · cases h

/-- Closed instance of C9: a stored root_folder equal to the current primary
project root suppresses the write. -/
theorem updateRootFolderInConfig_spec_witness :
    updateRootFolderInConfig (some "/cfg/config.json") ["/ws"]
      (ConfigFileState.parsed [("root_folder", JVal.jstr "/ws")]) = none :=
  updateRootFolderInConfig_spec.2.1 (some "/cfg/config.json") ["/ws"]
    [("root_folder", JVal.jstr "/ws")] (by decide)

end LlmCopier
